import Mathlib

/-!
Shallow embedding of the Barista-Cat real-time audio pipeline
(sample-rate conversion, PCM codec with base64 transport, playback
scheduler state machine, interruption policy), with theorems checking
the specification's claims against the code.

Sample values are modelled as exact rationals (the source's float64
arithmetic on the inputs in question is exact for every operation the
claims exercise), machine 16-bit integers as integers with explicit
wrapping, and the mutable player object as an explicit state record.
-/

/-! ## PcmCodec: Float32 <-> Int16 conversions -/

/-- JavaScript `Math.round`: round half toward positive infinity. -/
def jsRound (q : ℚ) : ℤ := ⌊q + 1/2⌋

/-- JavaScript truncation toward zero, as performed by `ToIntegerOrInfinity`
when a number is stored into an `Int16Array`. -/
def jsTruncate (q : ℚ) : ℤ := if 0 ≤ q then ⌊q⌋ else ⌈q⌉

/-- Storing an arbitrary (already truncated) integer into an `Int16Array`
slot: wrap modulo 2^16 into the signed range [-32768, 32768). -/
def wrapInt16 (n : ℤ) : ℤ :=
  let m := n % 65536
  if m < 32768 then m else m - 65536

/-- Int16 → Float32 conversion used when receiving audio from the service:
`float32Array[i] = int16Array[i] / 32768.0`. -/
def int16ToFloat (i : ℤ) : ℚ := (i : ℚ) / 32768

/-- Float32 → Int16 conversion on the encoding path
(`int16Array[i] = Math.max(-32768, Math.min(32767, float32Array[i] * 32768))`,
the store into the `Int16Array` truncating and wrapping). -/
def floatToInt16Enc (f : ℚ) : ℤ :=
  wrapInt16 (jsTruncate (max (-32768) (min 32767 (f * 32768))))

/-- Float32 → Int16 conversion, clamp-then-scale variant
(`const clamped = Math.max(-1.0, Math.min(1.0, float32Array[i]));
int16Array[i] = Math.round(clamped * 32767)`). -/
def floatToInt16 (f : ℚ) : ℤ :=
  jsRound (max (-1) (min 1 f) * 32767)

/-- Modelled from the spec: the Float→Int16 conversion as claim C7 words it —
clamp the sample to [-1.0, 1.0], scale by 32767 (or 32768 for the negative
side), round to nearest integer. Stated only to be compared against the
source's conversions. -/
def claimFloatToInt16 (f : ℚ) : ℤ :=
  let c := max (-1) (min 1 f)
  jsRound (c * (if c < 0 then 32768 else 32767))

/-! ## PcmCodec: Int16 <-> little-endian bytes -/

/-- Unsigned 16-bit view of a signed 16-bit value (the byte reinterpretation
performed by reading `int16Array.buffer` as a `Uint8Array`). -/
def toUint16 (i : ℤ) : ℕ := (i % 65536).toNat

/-- Little-endian byte serialization of an Int16 sequence
(`new Uint8Array(int16Array.buffer)`). -/
def int16ToBytesLE : List ℤ → List ℕ
  | [] => []
  | i :: rest => toUint16 i % 256 :: toUint16 i / 256 :: int16ToBytesLE rest

/-- Reading a little-endian byte sequence back as signed Int16 values
(`new Int16Array(bytes.buffer)`). -/
def bytesToInt16LE : List ℕ → List ℤ
  | lo :: hi :: rest =>
      let u := lo + 256 * hi
      (if u < 32768 then (u : ℤ) else (u : ℤ) - 65536) :: bytesToInt16LE rest
  | _ => []

/-! ## PcmCodec: base64 transport text

The source uses `btoa(String.fromCharCode(...bytes))` to encode and `atob`
to decode; both are embedded here over byte lists, characters being their
code points. -/

/-- Character codes of the standard base64 alphabet, in sextet order:
A–Z, a–z, 0–9, +, /. -/
def b64Alphabet : List ℕ :=
  (List.range 26).map (· + 65) ++ (List.range 26).map (· + 97) ++
    (List.range 10).map (· + 48) ++ [43, 47]

/-- Encoding character for a sextet value. -/
def b64Char (s : ℕ) : ℕ := b64Alphabet.getD s 0

/-- Sextet value of an encoding character. -/
def b64Value (c : ℕ) : ℕ := b64Alphabet.findIdx (· = c)

/-- Base64 encoding of a byte sequence (`btoa`), '=' (code 61) padding. -/
def btoaBytes : List ℕ → List ℕ
  | [] => []
  | [b1] => [b64Char (b1 / 4), b64Char (b1 % 4 * 16), 61, 61]
  | [b1, b2] => [b64Char (b1 / 4), b64Char (b1 % 4 * 16 + b2 / 16),
      b64Char (b2 % 16 * 4), 61]
  | b1 :: b2 :: b3 :: rest =>
      b64Char (b1 / 4) :: b64Char (b1 % 4 * 16 + b2 / 16) ::
        b64Char (b2 % 16 * 4 + b3 / 64) :: b64Char (b3 % 64) :: btoaBytes rest

/-- Base64 decoding back to bytes (`atob`). -/
def atobBytes : List ℕ → List ℕ
  | c1 :: c2 :: c3 :: c4 :: rest =>
      if c3 = 61 then
        [b64Value c1 * 4 + b64Value c2 / 16]
      else if c4 = 61 then
        [b64Value c1 * 4 + b64Value c2 / 16,
         b64Value c2 % 16 * 16 + b64Value c3 / 4]
      else
        (b64Value c1 * 4 + b64Value c2 / 16) ::
          (b64Value c2 % 16 * 16 + b64Value c3 / 4) ::
          (b64Value c3 % 4 * 64 + b64Value c4) :: atobBytes rest
  | _ => []

/-! ## InterruptionPolicy -/

/-- Volume level above which the local user counts as speaking
(`INTERRUPTION_VOLUME_THRESHOLD = 22` in voice-chat.tsx). -/
def INTERRUPTION_VOLUME_THRESHOLD : ℚ := 22

/-- Interruption decision from voice-chat.tsx:
`isUserSpeaking = volumeLevel > threshold` and the bartender is interrupted
iff `isUserSpeaking && audioPlayback.isPlayingAudio`. -/
def shouldInterrupt (level threshold : ℚ) (isPlaybackActive : Bool) : Bool :=
  decide (threshold < level) && isPlaybackActive

/-! ## SampleRateConverter -/

/-- Downsampling loop body from the audio worklet:
`for (let i = 0; i < inputSamples.length; i += ratio)
   output[outputIndex++] = inputSamples[Math.floor(i)];`
with fractional position `i` accumulated exactly. Fuel bounds the
iteration count; `convert` supplies enough for any ratio ≥ 1. -/
def downsampleLoop (input : List ℚ) (step : ℚ) : ℕ → ℚ → List ℚ
  | 0, _ => []
  | fuel + 1, i =>
      if i < input.length then
        input.getD (Int.toNat ⌊i⌋) 0 :: downsampleLoop input step fuel (i + step)
      else []

/-- SampleRateConverter.convert: nearest-lower-neighbor decimation stepping
through the input by `ratio = sourceRate / targetRate`. -/
def convert (input : List ℚ) (sourceRate targetRate : ℚ) : List ℚ :=
  downsampleLoop input (sourceRate / targetRate) (input.length + 1) 0

/-! ## PlaybackScheduler data model -/

/-- Decoded audio buffer: normalized float samples at a declared rate
(the `AudioBuffer` created by the decoder). -/
structure DecodedBuffer where
  samples : List ℚ
  sampleRate : ℕ
  deriving DecidableEq, Repr

/-- Duration in seconds of an `AudioBuffer`: sample count over sample rate. -/
def DecodedBuffer.durationSeconds (b : DecodedBuffer) : ℚ :=
  (b.samples.length : ℚ) / (b.sampleRate : ℚ)

/-- An `AudioBufferSourceNode` that has been started: its committed start
time, its buffer's duration, and whether its playout already finished. -/
structure Source where
  startTime : ℚ
  duration : ℚ
  finished : Bool
  deriving DecidableEq, Repr

/-- Playback state machine states. -/
inductive PlaybackState where
  | IDLE
  | BUFFERING
  | PLAYING
  | RE_BUFFERING
  deriving DecidableEq, Repr

/-- Mutable state of the audio player object in lib/audio/playback.ts. -/
structure AudioPlayer where
  audioQueue : List DecodedBuffer
  currentlyPlayingSources : List Source
  state : PlaybackState
  nextScheduledTime : Option ℚ
  isPlayingAudio : Bool
  deriving DecidableEq, Repr

/-- Buffering parameters from the source. -/
def PRE_BUFFER_CHUNKS : ℕ := 4

/-- Re-buffer threshold from the source. -/
def MIN_BUFFER_CHUNKS : ℕ := 3

/-- Look-ahead scheduling limit from the source. -/
def LOOK_AHEAD_CHUNKS : ℕ := 2

/-! ## PlaybackScheduler operations -/

/-- Schedule one chunk at clock time `t` (`scheduleChunk`):
`if (!this.nextScheduledTime || this.nextScheduledTime < currentTime)
   this.nextScheduledTime = currentTime + 0.1;`
then `source.start(this.nextScheduledTime)` and
`this.nextScheduledTime += audioBuffer.duration`, the source being added to
`currentlyPlayingSources`. The JavaScript falsiness test treats a stored
value of exactly 0 like the unset value. -/
def scheduleChunk (t : ℚ) (buf : DecodedBuffer) (s : AudioPlayer) : AudioPlayer :=
  let due : ℚ :=
    match s.nextScheduledTime with
    | none => t + 1/10
    | some v => if v = 0 ∨ v < t then t + 1/10 else v
  { s with
    nextScheduledTime := some (due + buf.durationSeconds)
    currentlyPlayingSources :=
      s.currentlyPlayingSources ++ [⟨due, buf.durationSeconds, false⟩]
    isPlayingAudio := true }

/-- Body of `scheduleQueuedChunks`: shift and schedule queue heads while the
queue is non-empty and fewer than `LOOK_AHEAD_CHUNKS` have been scheduled in
this pass; the remaining pass budget is the first argument. -/
def scheduleLoop (t : ℚ) : ℕ → AudioPlayer → AudioPlayer
  | 0, s => s
  | n + 1, s =>
      match s.audioQueue with
      | [] => s
      | buf :: rest =>
          scheduleLoop t n (scheduleChunk t buf { s with audioQueue := rest })

/-- Schedule up to `LOOK_AHEAD_CHUNKS` queued chunks in one pass
(`scheduleQueuedChunks`). -/
def scheduleQueuedChunks (t : ℚ) (s : AudioPlayer) : AudioPlayer :=
  scheduleLoop t LOOK_AHEAD_CHUNKS s

/-- One `play(base64Audio)` call after decoding, at clock time `t`:
an IDLE player enters BUFFERING on the first chunk, the chunk is pushed,
then the pre-buffer gate, the re-buffer check
(`state === 'PLAYING' && audioQueue.length < MIN_BUFFER_CHUNKS`),
the re-buffer recovery check and the normal-playback scheduling pass run in
source order. -/
def play (t : ℚ) (buf : DecodedBuffer) (s : AudioPlayer) : AudioPlayer :=
  let s := if s.state = PlaybackState.IDLE
    then { s with state := PlaybackState.BUFFERING } else s
  let s := { s with audioQueue := s.audioQueue ++ [buf] }
  if s.state = PlaybackState.BUFFERING then
    if PRE_BUFFER_CHUNKS ≤ s.audioQueue.length then
      scheduleQueuedChunks t { s with state := PlaybackState.PLAYING }
    else s
  else
    if s.state = PlaybackState.PLAYING ∧ s.audioQueue.length < MIN_BUFFER_CHUNKS then
      { s with state := PlaybackState.RE_BUFFERING }
    else
      let s := if s.state = PlaybackState.RE_BUFFERING ∧
          MIN_BUFFER_CHUNKS ≤ s.audioQueue.length
        then scheduleQueuedChunks t { s with state := PlaybackState.PLAYING }
        else s
      if s.state = PlaybackState.PLAYING then scheduleQueuedChunks t s else s

/-- Stopping one started source (`source.stop()`): a source whose playout
already finished raises, which the caller swallows. -/
def stopSource (src : Source) : Except String Source :=
  if src.finished then Except.error "InvalidStateNode"
  else Except.ok { src with finished := true }

/-- The `try { source.stop(); } catch (e) { /- ignore -/ }` wrapper. -/
def stopSourceCaught (src : Source) : Source :=
  match stopSource src with
  | Except.ok s => s
  | Except.error _ => src

/-- Emergency stop (`emergencyStop`): stop every in-flight source (swallowing
"already stopped" errors), clear the in-flight set, clear the queue, reset
state to IDLE, reset `nextScheduledTime` to null and the sounding flag to
false. Total: no error escapes. -/
def emergencyStop (s : AudioPlayer) : AudioPlayer :=
  let _stopped := s.currentlyPlayingSources.map stopSourceCaught
  { audioQueue := []
    currentlyPlayingSources := []
    state := PlaybackState.IDLE
    nextScheduledTime := none
    isPlayingAudio := false }

/-- Emergency stop with the per-source failures surfaced as `Except`,
had they not been caught: used to state that a finished source makes
`stopSource` fail while `emergencyStop` itself never fails. -/
def emergencyStopE (s : AudioPlayer) : Except String AudioPlayer :=
  Except.ok (emergencyStop s)

/-! ## PlaybackDecoder -/

/-- Decoding an inbound chunk's bytes (after `atob`): constructing
`new Int16Array(bytes.buffer)` throws when the byte length is not a
multiple of 2; otherwise the Int16 values are normalized to floats by
division by 32768 and wrapped into a 24 kHz buffer. -/
def decodeAudioBytes (bytes : List ℕ) : Except String DecodedBuffer :=
  if bytes.length % 2 ≠ 0 then
    Except.error "byte length is not a multiple of 2"
  else
    Except.ok ⟨(bytesToInt16LE bytes).map (fun i => (i : ℚ) / 32768), 24000⟩

/-- The onMessage path of voice-chat.tsx: `audioPlayback.play(...)` with a
`.catch` that only logs. A chunk whose decode fails is dropped and the
player state is left untouched. -/
def playMessage (t : ℚ) (bytes : List ℕ) (s : AudioPlayer) : AudioPlayer :=
  match decodeAudioBytes bytes with
  | Except.error _ => s
  | Except.ok buf => play t buf s

/-! ## Theorems -/

/-- C6: the interruption decision is `shouldInterrupt(level, threshold,
isPlaybackActive)`, true iff `level > threshold` and playback is active;
at level 30 against threshold 22 it interrupts exactly when playback is
active. -/
theorem c6_shouldInterrupt_iff :
    (∀ (level threshold : ℚ) (isPlaybackActive : Bool),
        shouldInterrupt level threshold isPlaybackActive = true ↔
          threshold < level ∧ isPlaybackActive = true) ∧
    shouldInterrupt 30 INTERRUPTION_VOLUME_THRESHOLD true = true ∧
    shouldInterrupt 30 INTERRUPTION_VOLUME_THRESHOLD false = false := by
  refine ⟨fun level threshold a => ?_, by decide, by decide⟩
  simp [shouldInterrupt]

/-- C7, counterexample: neither Float→Int16 conversion in the source scales
by 32768 on the negative side with rounding as the claim states. The
clamp-then-scale variant maps -1.0 to -32767 where the claim's formula gives
-32768; the encoding variant maps 0.75 to 24576 (truncating 0.75·32768)
where the claim's formula gives 24575 (rounding 0.75·32767). -/
theorem c7_counterexample :
    floatToInt16 (-1) = -32767 ∧ claimFloatToInt16 (-1) = -32768 ∧
    floatToInt16 (-1) ≠ claimFloatToInt16 (-1) ∧
    floatToInt16Enc (3/4) = 24576 ∧ claimFloatToInt16 (3/4) = 24575 ∧
    floatToInt16Enc (3/4) ≠ claimFloatToInt16 (3/4) := by
  refine ⟨?_, ?_, ?_, ?_, ?_, ?_⟩ <;>
    norm_num [floatToInt16, claimFloatToInt16, floatToInt16Enc, jsRound,
      jsTruncate, wrapInt16, Int.floor_eq_iff]

/-- C7, amended: the clamp-then-scale variant clamps each sample to
[-1.0, 1.0] and scales by 32767 on both sides (so -1.0 maps to -32767, not
-32768), rounding to nearest, with output always in [-32767, 32767]; the
encoding variant scales by 32768 and clamps the scaled value to
[-32768, 32767], truncating instead of rounding, with output always in
[-32768, 32767]. -/
theorem c7_floatToInt16_characterization (f : ℚ) :
    (floatToInt16 f = jsRound (max (-1) (min 1 f) * 32767) ∧
      -32767 ≤ floatToInt16 f ∧ floatToInt16 f ≤ 32767 ∧
      floatToInt16 (-1) = -32767) ∧
    (floatToInt16Enc f =
        wrapInt16 (jsTruncate (max (-32768) (min 32767 (f * 32768)))) ∧
      -32768 ≤ floatToInt16Enc f ∧ floatToInt16Enc f ≤ 32767) := by
  have hc1 : (-1 : ℚ) ≤ max (-1) (min 1 f) := le_max_left _ _
  have hc2 : max (-1) (min 1 f) ≤ 1 := max_le (by norm_num) (min_le_left _ _)
  have hwrap : ∀ n : ℤ, -32768 ≤ n → n ≤ 32767 →
      -32768 ≤ wrapInt16 n ∧ wrapInt16 n ≤ 32767 := by
    intro n h1 h2
    simp only [wrapInt16]
    split <;> omega
  have hd1 : (-32768 : ℚ) ≤ max (-32768) (min 32767 (f * 32768)) := le_max_left _ _
  have hd2 : max (-32768) (min 32767 (f * 32768)) ≤ 32767 :=
    max_le (by norm_num) (min_le_left _ _)
  set c := max (-32768) (min 32767 (f * 32768)) with hcdef
  have hn1 : (-32768 : ℤ) ≤ jsTruncate c := by
    unfold jsTruncate
    split
    · exact Int.le_floor.mpr (by push_cast; linarith)
    · have h := Int.le_ceil c
      have h2 : ((-32768 : ℤ) : ℚ) ≤ (⌈c⌉ : ℚ) := by push_cast; linarith
      exact_mod_cast h2
  have hn2 : jsTruncate c ≤ 32767 := by
    unfold jsTruncate
    split
    · have h := Int.floor_le c
      have h2 : ((⌊c⌋ : ℤ) : ℚ) ≤ ((32767 : ℤ) : ℚ) := by push_cast; linarith
      exact_mod_cast h2
    · have hceil : ⌈c⌉ ≤ (0 : ℤ) := Int.ceil_le.mpr (by push_cast; linarith)
      omega
  refine ⟨⟨rfl, ?_, ?_, ?_⟩, rfl, ?_, ?_⟩
  · unfold floatToInt16 jsRound
    have h : (-32767 : ℚ) + 1/2 ≤ max (-1) (min 1 f) * 32767 + 1/2 := by nlinarith
    calc (-32767 : ℤ) = ⌊(-32767 : ℚ) + 1/2⌋ := by norm_num [Int.floor_eq_iff]
      _ ≤ ⌊max (-1) (min 1 f) * 32767 + 1/2⌋ := Int.floor_le_floor h
  · unfold floatToInt16 jsRound
    have h : max (-1) (min 1 f) * 32767 + 1/2 ≤ 32767 + 1/2 := by nlinarith
    calc ⌊max (-1) (min 1 f) * 32767 + 1/2⌋ ≤ ⌊(32767 : ℚ) + 1/2⌋ :=
        Int.floor_le_floor h
      _ = 32767 := by norm_num [Int.floor_eq_iff]
  · norm_num [floatToInt16, jsRound, Int.floor_eq_iff]
  · exact (hwrap _ hn1 hn2).1
  · exact (hwrap _ hn1 hn2).2

/-- C2: after `emergencyStop()` the queue is empty, the in-flight set is
empty, the state is IDLE, `nextScheduledTime` is unset and the sounding
signal is false; stopping an already-finished source raises but the raise
is swallowed (no-op) so `emergencyStop` itself never fails; a subsequent
enqueue starts a fresh BUFFERING cycle with `nextScheduledTime` still
unset, so its first scheduled chunk gets the freshly computed start
`t + SAFETY_MARGIN`. -/
theorem c2_emergencyStop_clears_everything (s : AudioPlayer) (t : ℚ)
    (b : DecodedBuffer) :
    (emergencyStop s).audioQueue = [] ∧
    (emergencyStop s).currentlyPlayingSources = [] ∧
    (emergencyStop s).state = PlaybackState.IDLE ∧
    (emergencyStop s).nextScheduledTime = none ∧
    (emergencyStop s).isPlayingAudio = false ∧
    (∀ x d : ℚ, stopSource ⟨x, d, true⟩ = Except.error "InvalidStateNode" ∧
      stopSourceCaught ⟨x, d, true⟩ = ⟨x, d, true⟩) ∧
    emergencyStopE s = Except.ok (emergencyStop s) ∧
    play t b (emergencyStop s) =
      { audioQueue := [b], currentlyPlayingSources := [],
        state := PlaybackState.BUFFERING, nextScheduledTime := none,
        isPlayingAudio := false } ∧
    (scheduleChunk t b (emergencyStop s)).currentlyPlayingSources =
      [⟨t + 1/10, b.durationSeconds, false⟩] := by
  refine ⟨rfl, rfl, rfl, rfl, rfl, fun x d => ⟨rfl, rfl⟩, rfl, ?_, rfl⟩
  simp [play, emergencyStop, PRE_BUFFER_CHUNKS]

/-- C3: from IDLE, the first enqueue enters BUFFERING; three enqueues leave
the player in BUFFERING with no buffer scheduled for playout; the fourth
(`PRE_BUFFER_CHUNKS`-th) enqueue transitions to PLAYING and scheduling
begins (two look-ahead chunks are scheduled). -/
theorem c3_preBuffer_gating (s : AudioPlayer) (t1 t2 t3 t4 : ℚ)
    (b1 b2 b3 b4 : DecodedBuffer)
    (hstate : s.state = PlaybackState.IDLE) (hqueue : s.audioQueue = []) :
    (play t1 b1 s).state = PlaybackState.BUFFERING ∧
    (play t2 b2 (play t1 b1 s)).state = PlaybackState.BUFFERING ∧
    (play t3 b3 (play t2 b2 (play t1 b1 s))).state = PlaybackState.BUFFERING ∧
    (play t1 b1 s).currentlyPlayingSources = s.currentlyPlayingSources ∧
    (play t2 b2 (play t1 b1 s)).currentlyPlayingSources =
      s.currentlyPlayingSources ∧
    (play t3 b3 (play t2 b2 (play t1 b1 s))).currentlyPlayingSources =
      s.currentlyPlayingSources ∧
    (play t4 b4 (play t3 b3 (play t2 b2 (play t1 b1 s)))).state =
      PlaybackState.PLAYING ∧
    (play t4 b4 (play t3 b3 (play t2 b2 (play t1 b1 s)))).currentlyPlayingSources.length =
      s.currentlyPlayingSources.length + 2 := by
  obtain ⟨q, srcs, st, ndt, ip⟩ := s
  simp only at hstate hqueue
  subst hstate hqueue
  have h1 : play t1 b1 ⟨[], srcs, PlaybackState.IDLE, ndt, ip⟩ =
      ⟨[b1], srcs, PlaybackState.BUFFERING, ndt, ip⟩ := by
    simp [play, PRE_BUFFER_CHUNKS]
  have h2 : play t2 b2 ⟨[b1], srcs, PlaybackState.BUFFERING, ndt, ip⟩ =
      ⟨[b1, b2], srcs, PlaybackState.BUFFERING, ndt, ip⟩ := by
    simp [play, PRE_BUFFER_CHUNKS]
  have h3 : play t3 b3 ⟨[b1, b2], srcs, PlaybackState.BUFFERING, ndt, ip⟩ =
      ⟨[b1, b2, b3], srcs, PlaybackState.BUFFERING, ndt, ip⟩ := by
    simp [play, PRE_BUFFER_CHUNKS]
  rw [h1, h2, h3]
  refine ⟨rfl, rfl, rfl, rfl, rfl, rfl, ?_, ?_⟩ <;>
  · simp [play, PRE_BUFFER_CHUNKS, scheduleQueuedChunks, LOOK_AHEAD_CHUNKS,
      scheduleLoop, scheduleChunk]

/-- Duration of a decoded buffer is never negative. -/
theorem durationSeconds_nonneg (b : DecodedBuffer) : 0 ≤ b.durationSeconds := by
  unfold DecodedBuffer.durationSeconds
  positivity

/-- When the cursor holds a strictly positive value not behind the clock,
`scheduleChunk` does not reset it: the chunk starts exactly at the cursor
and the cursor advances by the chunk's duration. -/
theorem scheduleChunk_no_reset (t v : ℚ) (b : DecodedBuffer) (s : AudioPlayer)
    (h5 : s.nextScheduledTime = some v) (h6 : t ≤ v) (h7 : 0 < v) :
    scheduleChunk t b s =
      { s with
        nextScheduledTime := some (v + b.durationSeconds)
        currentlyPlayingSources :=
          s.currentlyPlayingSources ++ [⟨v, b.durationSeconds, false⟩]
        isPlayingAudio := true } := by
  have hnot : ¬(v = 0 ∨ v < t) := by
    push_neg
    exact ⟨ne_of_gt h7, h6⟩
  simp [scheduleChunk, h5, hnot]

/-- Concrete small decoded buffer used by witnesses. -/
def sampleBuf : DecodedBuffer := ⟨[0, 0], 24000⟩

/-- Concrete idle player used by witnesses. -/
def idlePlayer : AudioPlayer := ⟨[], [], PlaybackState.IDLE, none, false⟩

/-- C3 witness: the pre-buffer gating theorem applied to the idle player
with four concrete enqueues. -/
theorem c3_preBuffer_gating_witness :
    idlePlayer.state = PlaybackState.IDLE ∧ idlePlayer.audioQueue = [] ∧
    (play 4 sampleBuf (play 3 sampleBuf (play 2 sampleBuf
      (play 1 sampleBuf idlePlayer)))).state = PlaybackState.PLAYING :=
  ⟨rfl, rfl,
    (c3_preBuffer_gating idlePlayer 1 2 3 4 sampleBuf sampleBuf sampleBuf
      sampleBuf rfl rfl).2.2.2.2.2.2.1⟩

/-- C4, counterexample: while PLAYING with queue [sampleBuf, sampleBuf] and
cursor 10, one `play` call at clock 1 pushes the chunk (queue length 3, not
below MIN_BUFFER_CHUNKS) and then the scheduling pass removes a buffer
leaving 2 < MIN_BUFFER_CHUNKS and, contrary to the claim, does not
transition to RE_BUFFERING and does not stop: it schedules a second buffer,
ending still PLAYING with queue length 1 < MIN_BUFFER_CHUNKS. The
transition the code performs happens on the enqueue path, not after
removal. -/
theorem c4_counterexample :
    (play 1 sampleBuf
      ⟨[sampleBuf, sampleBuf], [], PlaybackState.PLAYING, some 10, true⟩).state =
        PlaybackState.PLAYING ∧
    (play 1 sampleBuf
      ⟨[sampleBuf, sampleBuf], [], PlaybackState.PLAYING, some 10, true⟩).audioQueue.length = 1 ∧
    (play 1 sampleBuf
      ⟨[sampleBuf, sampleBuf], [], PlaybackState.PLAYING, some 10, true⟩).currentlyPlayingSources.length = 2 ∧
    1 < MIN_BUFFER_CHUNKS ∧ 2 < MIN_BUFFER_CHUNKS := by
  decide

/-- C4, amended: the RE_BUFFERING transition happens on the enqueue path —
while PLAYING, pushing a new buffer that still leaves the queue below
MIN_BUFFER_COUNT transitions to RE_BUFFERING with no scheduling in that
call (sources and cursor untouched); while RE_BUFFERING with a preserved
positive cursor not behind the clock, an enqueue that brings the queue
back to MIN_BUFFER_COUNT transitions back to PLAYING and resumes
scheduling exactly from the preserved `nextDueTime`. -/
theorem c4_rebuffer_amended (s s' : AudioPlayer) (t t' : ℚ)
    (b b' q1 q2 : DecodedBuffer) (v : ℚ)
    (h1 : s.state = PlaybackState.PLAYING)
    (h2 : s.audioQueue.length + 1 < MIN_BUFFER_CHUNKS)
    (h3 : s'.state = PlaybackState.RE_BUFFERING)
    (h4 : s'.audioQueue = [q1, q2])
    (h5 : s'.nextScheduledTime = some v)
    (h6 : t' ≤ v) (h7 : 0 < v) :
    play t b s =
      { s with
        audioQueue := s.audioQueue ++ [b]
        state := PlaybackState.RE_BUFFERING } ∧
    (play t' b' s').state = PlaybackState.PLAYING ∧
    (play t' b' s').nextScheduledTime =
      some (v + q1.durationSeconds + q2.durationSeconds + b'.durationSeconds) ∧
    (play t' b' s').currentlyPlayingSources =
      s'.currentlyPlayingSources ++
        [⟨v, q1.durationSeconds, false⟩,
         ⟨v + q1.durationSeconds, q2.durationSeconds, false⟩,
         ⟨v + q1.durationSeconds + q2.durationSeconds, b'.durationSeconds,
           false⟩] := by
  have hdq1 := durationSeconds_nonneg q1
  have hdq2 := durationSeconds_nonneg q2
  have hdb' := durationSeconds_nonneg b'
  constructor
  · obtain ⟨q, srcs, st, ndt, ip⟩ := s
    simp only at h1 h2
    subst h1
    simp [play, MIN_BUFFER_CHUNKS] at h2 ⊢
    omega
  · obtain ⟨q, srcs, st, ndt, ip⟩ := s'
    simp only at h3 h4 h5
    subst h3 h4 h5
    have step1 :
        scheduleChunk t' q1
          ⟨[q2, b'], srcs, PlaybackState.PLAYING, some v, ip⟩ =
          ⟨[q2, b'], srcs ++ [⟨v, q1.durationSeconds, false⟩],
            PlaybackState.PLAYING, some (v + q1.durationSeconds), true⟩ :=
      scheduleChunk_no_reset t' v q1 _ rfl h6 h7
    have step2 :
        scheduleChunk t' q2
          ⟨[b'], srcs ++ [⟨v, q1.durationSeconds, false⟩],
            PlaybackState.PLAYING, some (v + q1.durationSeconds), true⟩ =
          ⟨[b'],
            srcs ++ [⟨v, q1.durationSeconds, false⟩] ++
              [⟨v + q1.durationSeconds, q2.durationSeconds, false⟩],
            PlaybackState.PLAYING,
            some (v + q1.durationSeconds + q2.durationSeconds), true⟩ :=
      scheduleChunk_no_reset t' (v + q1.durationSeconds) q2 _ rfl
        (by linarith) (by linarith)
    have step3 :
        scheduleChunk t' b'
          ⟨[],
            srcs ++ [⟨v, q1.durationSeconds, false⟩,
              ⟨v + q1.durationSeconds, q2.durationSeconds, false⟩],
            PlaybackState.PLAYING,
            some (v + q1.durationSeconds + q2.durationSeconds), true⟩ =
          ⟨[],
            srcs ++ [⟨v, q1.durationSeconds, false⟩,
              ⟨v + q1.durationSeconds, q2.durationSeconds, false⟩] ++
              [⟨v + q1.durationSeconds + q2.durationSeconds,
                b'.durationSeconds, false⟩],
            PlaybackState.PLAYING,
            some (v + q1.durationSeconds + q2.durationSeconds +
              b'.durationSeconds), true⟩ :=
      scheduleChunk_no_reset t' (v + q1.durationSeconds + q2.durationSeconds)
        b' _ rfl (by linarith) (by linarith)
    simp only [play, scheduleQueuedChunks, LOOK_AHEAD_CHUNKS, scheduleLoop,
      MIN_BUFFER_CHUNKS]
    simp [step1, step2, step3, scheduleLoop]

/-- C10: whenever `scheduleChunk` commits a buffer's start, the committed
start time (the start of the newly appended, last in-flight source) is at
least the audio clock's current time — the cursor is first reset to
`currentTime + SAFETY_MARGIN` when unset or in the past — and
`nextScheduledTime` never decreases across a scheduling operation. -/
theorem c10_scheduled_start_never_past (t : ℚ) (b : DecodedBuffer)
    (s : AudioPlayer) (h0 : 0 ≤ t) :
    (scheduleChunk t b s).currentlyPlayingSources ≠ [] ∧
    (∀ src : Source,
        (scheduleChunk t b s).currentlyPlayingSources.getLast? = some src →
          t ≤ src.startTime) ∧
    (∀ v w : ℚ, s.nextScheduledTime = some v →
        (scheduleChunk t b s).nextScheduledTime = some w → v ≤ w) := by
  have hd := durationSeconds_nonneg b
  obtain ⟨q, srcs, st, ndt, ip⟩ := s
  cases ndt with
  | none =>
      refine ⟨by simp [scheduleChunk], ?_, ?_⟩
      · intro src hsrc
        simp only [scheduleChunk, List.getLast?_concat, Option.some.injEq]
          at hsrc
        rw [← hsrc]
        linarith
      · intro v w hv _
        exact absurd hv (by simp)
  | some v0 =>
      by_cases hc : v0 = 0 ∨ v0 < t
      · refine ⟨by simp [scheduleChunk], ?_, ?_⟩
        · intro src hsrc
          simp only [scheduleChunk, hc, if_true, List.getLast?_concat,
            Option.some.injEq] at hsrc
          rw [← hsrc]
          simp only
          linarith
        · intro v w hv hw
          simp only [Option.some.injEq] at hv
          simp only [scheduleChunk, hc, if_true, Option.some.injEq] at hw
          rcases hc with hc | hc <;> subst hv <;> linarith [hw]
      · refine ⟨by simp [scheduleChunk], ?_, ?_⟩
        · intro src hsrc
          simp only [scheduleChunk, hc, if_false, List.getLast?_concat,
            Option.some.injEq] at hsrc
          push_neg at hc
          rw [← hsrc]
          simp only
          exact hc.2
        · intro v w hv hw
          simp only [Option.some.injEq] at hv
          simp only [scheduleChunk, hc, if_false, Option.some.injEq] at hw
          subst hv
          linarith [hw]

/-- C10 witness: scheduling into the idle player at clock 1 commits a start
no earlier than 1. -/
theorem c10_scheduled_start_never_past_witness :
    (0 : ℚ) ≤ 1 ∧
    ∀ src : Source,
      (scheduleChunk 1 sampleBuf idlePlayer).currentlyPlayingSources.getLast? =
        some src → (1 : ℚ) ≤ src.startTime :=
  ⟨by norm_num,
    (c10_scheduled_start_never_past 1 sampleBuf idlePlayer (by norm_num)).2.1⟩

/-- When the cursor is unset, `scheduleChunk` computes a fresh
`t + SAFETY_MARGIN` start. -/
theorem scheduleChunk_fresh (t : ℚ) (b : DecodedBuffer) (s : AudioPlayer)
    (hnone : s.nextScheduledTime = none) :
    scheduleChunk t b s =
      { s with
        nextScheduledTime := some (t + 1/10 + b.durationSeconds)
        currentlyPlayingSources :=
          s.currentlyPlayingSources ++ [⟨t + 1/10, b.durationSeconds, false⟩]
        isPlayingAudio := true } := by
  simp [scheduleChunk, hnone, add_assoc]

/-- Sequence of `scheduleChunk` calls, each at its own clock time. -/
def scheduleSeq : List (ℚ × DecodedBuffer) → AudioPlayer → AudioPlayer
  | [], s => s
  | (t, b) :: rest, s => scheduleSeq rest (scheduleChunk t b s)

/-- Gap-free scheduling: starting from cursor value `cur`, every call's
clock time is no later than the cursor as it stands at that call. -/
def noGapsFrom : ℚ → List (ℚ × DecodedBuffer) → Bool
  | _, [] => true
  | cur, (t, b) :: rest =>
      decide (t ≤ cur) && noGapsFrom (cur + b.durationSeconds) rest

/-- Gap-free scheduling from a positive cursor advances the cursor by
exactly the sum of the scheduled durations. -/
theorem scheduleSeq_cursor (pairs : List (ℚ × DecodedBuffer)) :
    ∀ (s : AudioPlayer) (cur : ℚ), s.nextScheduledTime = some cur →
      0 < cur → noGapsFrom cur pairs = true →
      (scheduleSeq pairs s).nextScheduledTime =
        some (cur + (pairs.map (fun p => p.2.durationSeconds)).sum) := by
  induction pairs with
  | nil => intro s cur hcur _ _; simp [scheduleSeq, hcur]
  | cons p rest ih =>
      intro s cur hcur hpos hgap
      obtain ⟨t, b⟩ := p
      simp only [noGapsFrom, Bool.and_eq_true, decide_eq_true_eq] at hgap
      obtain ⟨ht, hrest⟩ := hgap
      have hd := durationSeconds_nonneg b
      rw [scheduleSeq, scheduleChunk_no_reset t cur b s hcur ht hpos,
        ih _ (cur + b.durationSeconds) rfl (by linarith) hrest]
      simp [add_assoc]

/-- C1: enqueuing a gap-free sequence of buffers into a scheduler whose
cursor is unset makes the first scheduled buffer set the cursor to
`initial_time + SAFETY_MARGIN` and every further buffer advance it by its
own duration, so after scheduling completes `nextDueTime` equals
`initial_time + SAFETY_MARGIN + sum(durations)` exactly. -/
theorem c1_zero_gap (t0 : ℚ) (b0 : DecodedBuffer)
    (rest : List (ℚ × DecodedBuffer)) (s : AudioPlayer)
    (h0 : 0 ≤ t0) (hidle : s.nextScheduledTime = none)
    (hgap : noGapsFrom (t0 + 1/10 + b0.durationSeconds) rest = true) :
    (scheduleSeq ((t0, b0) :: rest) s).nextScheduledTime =
      some (t0 + 1/10 +
        (((t0, b0) :: rest).map (fun p => p.2.durationSeconds)).sum) := by
  have hd0 := durationSeconds_nonneg b0
  rw [scheduleSeq, scheduleChunk_fresh t0 b0 s hidle,
    scheduleSeq_cursor rest _ (t0 + 1/10 + b0.durationSeconds) rfl
      (by linarith) hgap]
  simp [add_assoc]

/-- C1 witness: two gap-free chunks scheduled from the idle player at clock
1 leave the cursor at 1 + 1/10 + the two durations. -/
theorem c1_zero_gap_witness :
    (0 : ℚ) ≤ 1 ∧
    noGapsFrom (1 + 1/10 + sampleBuf.durationSeconds) [(1, sampleBuf)] = true ∧
    (scheduleSeq [(1, sampleBuf), (1, sampleBuf)] idlePlayer).nextScheduledTime =
      some (1 + 1/10 +
        (([(1, sampleBuf), (1, sampleBuf)] :
            List (ℚ × DecodedBuffer)).map (fun p => p.2.durationSeconds)).sum) :=
  ⟨by norm_num,
    by norm_num [noGapsFrom, DecodedBuffer.durationSeconds, sampleBuf],
    c1_zero_gap 1 sampleBuf [(1, sampleBuf)] idlePlayer (by norm_num) rfl
      (by norm_num [noGapsFrom, DecodedBuffer.durationSeconds, sampleBuf])⟩

/-- C4 witness: the amended re-buffer theorem applied to concrete PLAYING
and RE_BUFFERING states. -/
theorem c4_rebuffer_amended_witness :
    (play 1 sampleBuf
      ⟨[sampleBuf, sampleBuf], [], PlaybackState.RE_BUFFERING, some 5,
        true⟩).state = PlaybackState.PLAYING :=
  (c4_rebuffer_amended ⟨[], [], PlaybackState.PLAYING, some 10, true⟩
    ⟨[sampleBuf, sampleBuf], [], PlaybackState.RE_BUFFERING, some 5, true⟩
    1 1 sampleBuf sampleBuf sampleBuf sampleBuf 5 rfl (by decide) rfl rfl rfl
    (by norm_num) (by norm_num)).2.1

/-- Every sextet value maps to an alphabet character that decodes back to
it. -/
theorem b64Value_b64Char : ∀ s < 64, b64Value (b64Char s) = s := by decide

/-- No alphabet character is the padding character '=' (code 61). -/
theorem b64Char_ne_pad : ∀ s < 64, b64Char s ≠ 61 := by decide

/-- Base64 decoding inverts encoding on byte sequences. -/
theorem atob_btoa (bs : List ℕ) (hb : ∀ b ∈ bs, b < 256) :
    atobBytes (btoaBytes bs) = bs := by
  have H : ∀ (n : ℕ) (l : List ℕ), l.length ≤ n → (∀ b ∈ l, b < 256) →
      atobBytes (btoaBytes l) = l := by
    intro n
    induction n with
    | zero =>
        intro l hlen _
        have : l = [] := List.length_eq_zero.mp (Nat.le_zero.mp hlen)
        subst this
        rfl
    | succ n ih =>
        intro l hlen hb
        rcases l with _ | ⟨b1, l⟩
        · rfl
        rcases l with _ | ⟨b2, l⟩
        · have h1 : b1 < 256 := hb b1 (by simp)
          rw [btoaBytes, atobBytes, if_pos rfl,
            b64Value_b64Char _ (by omega), b64Value_b64Char _ (by omega)]
          simp only [List.cons.injEq, and_true]
          omega
        rcases l with _ | ⟨b3, rest⟩
        · have h1 : b1 < 256 := hb b1 (by simp)
          have h2 : b2 < 256 := hb b2 (by simp)
          rw [btoaBytes, atobBytes,
            if_neg (b64Char_ne_pad _ (by omega)), if_pos rfl,
            b64Value_b64Char _ (by omega), b64Value_b64Char _ (by omega),
            b64Value_b64Char _ (by omega)]
          simp only [List.cons.injEq, and_true]
          omega
        · have h1 : b1 < 256 := hb b1 (by simp)
          have h2 : b2 < 256 := hb b2 (by simp)
          have h3 : b3 < 256 := hb b3 (by simp)
          rw [btoaBytes, atobBytes,
            if_neg (b64Char_ne_pad _ (by omega)),
            if_neg (b64Char_ne_pad _ (by omega)),
            b64Value_b64Char _ (by omega), b64Value_b64Char _ (by omega),
            b64Value_b64Char _ (by omega), b64Value_b64Char _ (by omega),
            ih rest (by simp at hlen; omega)
              (fun b hbmem => hb b (by simp [hbmem]))]
          simp only [List.cons.injEq, and_true]
          refine ⟨by omega, by omega, by omega⟩
  exact H bs.length bs le_rfl hb

/-- Serialized Int16 bytes are genuine bytes. -/
theorem int16ToBytesLE_lt_256 (xs : List ℤ) :
    ∀ b ∈ int16ToBytesLE xs, b < 256 := by
  induction xs with
  | nil => simp [int16ToBytesLE]
  | cons x xs ih =>
      intro b hbmem
      have hlt : toUint16 x < 65536 := by
        unfold toUint16
        have h1 := Int.emod_nonneg x (by norm_num : (65536 : ℤ) ≠ 0)
        have h2 := Int.emod_lt_of_pos x (by norm_num : (0 : ℤ) < 65536)
        omega
      rw [int16ToBytesLE] at hbmem
      simp only [List.mem_cons] at hbmem
      rcases hbmem with rfl | rfl | hbmem
      · omega
      · omega
      · exact ih b hbmem

/-- Little-endian serialization of valid Int16 values round-trips. -/
theorem bytesToInt16LE_int16ToBytesLE (xs : List ℤ)
    (hx : ∀ x ∈ xs, -32768 ≤ x ∧ x < 32768) :
    bytesToInt16LE (int16ToBytesLE xs) = xs := by
  induction xs with
  | nil => rfl
  | cons x xs ih =>
      have hxr := hx x (by simp)
      rw [int16ToBytesLE, bytesToInt16LE,
        ih (fun y hy => hx y (by simp [hy]))]
      simp only [List.cons.injEq, and_true]
      unfold toUint16
      split <;> omega

/-- One Int16 sample survives the float round trip: dividing by 32768,
multiplying back by 32768, clamping, truncating and wrapping is the
identity on [-32768, 32768). -/
theorem floatToInt16Enc_int16ToFloat (i : ℤ) (h1 : -32768 ≤ i)
    (h2 : i < 32768) :
    floatToInt16Enc (int16ToFloat i) = i := by
  have hmul : int16ToFloat i * 32768 = (i : ℚ) := by
    unfold int16ToFloat
    field_simp
  have hmin : min 32767 ((i : ℚ)) = (i : ℚ) :=
    min_eq_right (by exact_mod_cast (by omega : i ≤ 32767))
  have hmax : max (-32768) ((i : ℚ)) = (i : ℚ) :=
    max_eq_right (by exact_mod_cast h1)
  have htr : jsTruncate ((i : ℚ)) = i := by
    unfold jsTruncate
    split
    · exact Int.floor_intCast i
    · exact Int.ceil_intCast i
  unfold floatToInt16Enc
  rw [hmul, hmin, hmax, htr]
  simp only [wrapInt16]
  split <;> omega

/-- C5: for every valid Int16 sequence, float→int16→float composed with the
base64 transport encode/decode over the little-endian byte representation
reproduces the original Int16 sequence exactly. -/
theorem c5_transport_roundtrip (xs : List ℤ)
    (hx : ∀ x ∈ xs, -32768 ≤ x ∧ x < 32768) :
    bytesToInt16LE (atobBytes (btoaBytes (int16ToBytesLE
      (xs.map (fun i => floatToInt16Enc (int16ToFloat i)))))) = xs := by
  have henc : xs.map (fun i => floatToInt16Enc (int16ToFloat i)) = xs := by
    induction xs with
    | nil => rfl
    | cons x xs ih =>
        have hxr := hx x (by simp)
        simp only [List.map_cons, List.cons.injEq]
        exact ⟨floatToInt16Enc_int16ToFloat x hxr.1 hxr.2,
          ih (fun y hy => hx y (by simp [hy]))⟩
  rw [henc, atob_btoa _ (int16ToBytesLE_lt_256 xs),
    bytesToInt16LE_int16ToBytesLE xs hx]

/-- C5 witness: the transport round trip applied to the extreme and small
Int16 values. -/
theorem c5_transport_roundtrip_witness :
    bytesToInt16LE (atobBytes (btoaBytes (int16ToBytesLE
      (([32767, -32768, 0, 1, -1] : List ℤ).map
        (fun i => floatToInt16Enc (int16ToFloat i)))))) =
      [32767, -32768, 0, 1, -1] :=
  c5_transport_roundtrip [32767, -32768, 0, 1, -1] (by decide)

/-- Stepping the downsampling loop by 3 through a 480-sample input visits
exactly the positions 3·k for k < 160. -/
theorem downsampleLoop_three (input : List ℚ) (hlen : input.length = 480) :
    ∀ (fuel k : ℕ), k ≤ 160 → 160 - k ≤ fuel →
      downsampleLoop input 3 fuel ((3 * k : ℕ) : ℚ) =
        (List.range (160 - k)).map (fun j => input.getD (3 * (k + j)) 0) := by
  intro fuel
  induction fuel with
  | zero =>
      intro k hk hf
      have h0 : 160 - k = 0 := by omega
      simp [downsampleLoop, h0]
  | succ n ih =>
      intro k hk hf
      by_cases hklt : k < 160
      · have hcond : ((3 * k : ℕ) : ℚ) < (input.length : ℚ) := by
          rw [hlen]
          exact_mod_cast (by omega : 3 * k < 480)
        rw [downsampleLoop, if_pos hcond]
        have hfloor : Int.toNat ⌊((3 * k : ℕ) : ℚ)⌋ = 3 * k := by
          rw [Int.floor_natCast]
          exact Int.toNat_natCast _
        have hstep : ((3 * k : ℕ) : ℚ) + 3 = ((3 * (k + 1) : ℕ) : ℚ) := by
          push_cast
          ring
        rw [hfloor, hstep, ih (k + 1) (by omega) (by omega)]
        have hr : 160 - k = (160 - (k + 1)) + 1 := by omega
        rw [hr, List.range_succ_eq_map]
        simp only [List.map_cons, List.map_map, Nat.add_zero, List.cons.injEq]
        refine ⟨by trivial, ?_⟩
        apply List.map_congr_left
        intro j _
        simp only [Function.comp_apply]
        congr 2
        omega
      · have hk160 : k = 160 := by omega
        subst hk160
        have hcond : ¬ ((3 * 160 : ℕ) : ℚ) < (input.length : ℚ) := by
          rw [hlen]
          norm_num
        rw [downsampleLoop, if_neg hcond]
        simp

/-- C8: converting any 480-sample input from 48000 Hz to 16000 Hz produces
exactly 160 output samples, the k-th being the input sample at the floor of
the k-th fractional source position k·ratio = 3k. -/
theorem c8_downsample_480_to_160 (input : List ℚ)
    (hlen : input.length = 480) :
    (convert input 48000 16000).length = 160 ∧
    ∀ k, k < 160 →
      (convert input 48000 16000).getD k 0 = input.getD (3 * k) 0 := by
  have hmain : convert input 48000 16000 =
      (List.range 160).map (fun j => input.getD (3 * j) 0) := by
    unfold convert
    have h3 : (48000 : ℚ) / 16000 = 3 := by norm_num
    rw [h3, hlen]
    have h := downsampleLoop_three input hlen 481 0 (by omega) (by omega)
    simpa using h
  rw [hmain]
  refine ⟨by simp, ?_⟩
  intro k hk
  simp [List.getD_eq_getElem?_getD, List.getElem?_map, List.getElem?_range hk]

/-- C8 witness: the conversion theorem applied to a concrete 480-sample
input. -/
theorem c8_downsample_480_to_160_witness :
    (List.replicate 480 (0 : ℚ)).length = 480 ∧
    (convert (List.replicate 480 (0 : ℚ)) 48000 16000).length = 160 :=
  ⟨by rw [List.length_replicate],
    (c8_downsample_480_to_160 (List.replicate 480 0)
      (by rw [List.length_replicate])).1⟩

/-- C9: decoding an inbound chunk's bytes succeeds exactly when the decoded
byte length is a multiple of 2; on an odd byte count the chunk is dropped —
the caught error leaves the player (queue, in-flight set, state, cursor)
untouched and is not propagated. -/
theorem c9_decode_fails_iff_odd (bytes : List ℕ) (t : ℚ) (s : AudioPlayer) :
    ((∃ buf, decodeAudioBytes bytes = Except.ok buf) ↔
      bytes.length % 2 = 0) ∧
    (bytes.length % 2 = 1 → playMessage t bytes s = s) := by
  constructor
  · unfold decodeAudioBytes
    by_cases h : bytes.length % 2 = 0 <;> simp [h]
  · intro hodd
    unfold playMessage decodeAudioBytes
    simp [hodd]

/-- C9 witness: a 3-byte (odd) payload is dropped with the idle player
unchanged. -/
theorem c9_decode_fails_iff_odd_witness :
    ([0, 0, 0] : List ℕ).length % 2 = 1 ∧
    playMessage 0 [0, 0, 0] idlePlayer = idlePlayer :=
  ⟨by decide, (c9_decode_fails_iff_odd [0, 0, 0] 0 idlePlayer).2 (by decide)⟩
